import Mathlib

/-!
Verification of the pyhibernator indicator library (src/pyhibernator/main.py).

Every definition below is a shallow embedding of the corresponding Python
function.  Citation histories are lists of integers (Python ints), real-valued
intermediate quantities are rationals `ℚ` wherever the Python computation is
exact field arithmetic, and `ℝ` where the source uses `sqrt`/`arctan`.
Python exceptions (KeyError on a missing dict key, ValueError from
`max([])`/`np.argmax([])` on empty sequences, ZeroDivisionError) are modelled
by `Option`: `none` means the call raises instead of returning a value.
-/

/-- Maximum of the nonempty list `x :: t` (`np.max` on a nonempty array),
written as the left fold the source's `np.max` reduction performs. -/
def listMax1 {α : Type} [LinearOrder α] (x : α) : List α → α
  | [] => x
  | y :: t => listMax1 (max x y) t

/-- First index of the maximum of a list, i.e. `np.argmax`.
`np.argmax` returns the first occurrence of the maximum; on an empty array it
raises, callers below guard that case (the value `0` here is never used). -/
def argmaxL {α : Type} [LinearOrder α] : List α → ℕ
  | [] => 0
  | [_] => 0
  | x :: y :: t => if listMax1 y t ≤ x then 0 else argmaxL (y :: t) + 1

theorem listMax1_max {α : Type} [LinearOrder α] (t : List α) (x y : α) :
    listMax1 (max x y) t = max x (listMax1 y t) := by
  induction t generalizing x y with
  | nil => rfl
  | cons z t ih =>
    show listMax1 (max (max x y) z) t = max x (listMax1 (max y z) t)
    rw [max_assoc, ih x (max y z)]

theorem listMax1_cons {α : Type} [LinearOrder α] (x y : α) (t : List α) :
    listMax1 x (y :: t) = max x (listMax1 y t) := by
  show listMax1 (max x y) t = max x (listMax1 y t)
  exact listMax1_max t x y

theorem le_listMax1_self {α : Type} [LinearOrder α] (x : α) (t : List α) :
    x ≤ listMax1 x t := by
  induction t generalizing x with
  | nil => simp [listMax1]
  | cons y t ih =>
    rw [listMax1_cons]
    exact le_max_left _ _

theorem le_listMax1_of_mem {α : Type} [LinearOrder α] (x a : α) (t : List α)
    (h : a ∈ t) : a ≤ listMax1 x t := by
  induction t generalizing x with
  | nil => cases h
  | cons y t ih =>
    rw [listMax1_cons]
    rcases List.mem_cons.mp h with rfl | h
    · exact le_trans (le_listMax1_self a t) (le_max_right _ _)
    · exact le_trans (ih y h) (le_max_right _ _)

theorem listMax1_mem {α : Type} [LinearOrder α] (x : α) (t : List α) :
    listMax1 x t ∈ x :: t := by
  induction t generalizing x with
  | nil => simp [listMax1]
  | cons y t ih =>
    rw [listMax1_cons]
    rcases max_choice x (listMax1 y t) with h | h
    · rw [h]; exact List.mem_cons_self _ _
    · rw [h]
      exact List.mem_cons_of_mem _ (ih y)

theorem argmaxL_lt_length {α : Type} [LinearOrder α] (l : List α) (h : l ≠ []) :
    argmaxL l < l.length := by
  induction l with
  | nil => exact absurd rfl h
  | cons x t ih =>
    cases t with
    | nil => simp [argmaxL]
    | cons y t =>
      show (if listMax1 y t ≤ x then 0 else argmaxL (y :: t) + 1) < (x :: y :: t).length
      by_cases hc : listMax1 y t ≤ x
      · simp [hc]
      · rw [if_neg hc]
        have := ih (by simp)
        simpa [Nat.succ_lt_succ_iff] using this

/-- The value sitting at the argmax index is the maximum of the list. -/
theorem getD_argmaxL {α : Type} [LinearOrder α] (x : α) (t : List α) (d : α) :
    (x :: t).getD (argmaxL (x :: t)) d = listMax1 x t := by
  induction t generalizing x with
  | nil => simp [argmaxL, listMax1]
  | cons y t ih =>
    show (x :: y :: t).getD (if listMax1 y t ≤ x then 0 else argmaxL (y :: t) + 1) d
        = listMax1 x (y :: t)
    rw [listMax1_cons]
    by_cases hc : listMax1 y t ≤ x
    · rw [if_pos hc, max_eq_left hc]
      rfl
    · rw [if_neg hc, max_eq_right (le_of_not_le hc)]
      show (y :: t).getD (argmaxL (y :: t)) d = listMax1 y t
      exact ih y

/-- Sequential evaluation of a Python list comprehension whose elements can
raise: `none` as soon as one element raises. -/
def traverseOpt {α β : Type} (g : α → Option β) : List α → Option (List β)
  | [] => some []
  | a :: t =>
    match g a, traverseOpt g t with
    | some b, some bs => some (b :: bs)
    | _, _ => none

theorem traverseOpt_eq_map {α β : Type} (g : α → Option β) (f : α → β)
    (l : List α) (h : ∀ a ∈ l, g a = some (f a)) :
    traverseOpt g l = some (l.map f) := by
  induction l with
  | nil => rfl
  | cons a t ih =>
    have ha : g a = some (f a) := h a (List.mem_cons_self _ _)
    have ht : traverseOpt g t = some (t.map f) :=
      ih (fun b hb => h b (List.mem_cons_of_mem _ hb))
    simp [traverseOpt, ha, ht]

/-- If any element of the comprehension raises, the whole comprehension
raises. -/
theorem traverseOpt_eq_none_of_mem {α β : Type} (g : α → Option β)
    (l : List α) (a : α) (ha : a ∈ l) (hga : g a = none) :
    traverseOpt g l = none := by
  induction l with
  | nil => cases ha
  | cons b t ih =>
    rcases List.mem_cons.mp ha with rfl | hmem
    · unfold traverseOpt
      rw [hga]
    · have ht := ih hmem
      unfold traverseOpt
      rw [ht]
      cases g b <;> rfl

/-! ## AdjustedGiniCoefficient -/

/-- Embedding of `AdjustedGiniCoefficient.score`: `C = sum(c)`, `n = len(c)`; returns `1.0`
when `C == 0`, `0.0` when `n < 2`, else the recency-weighted Gini formula
`(n/(n-1))*(1 - (2*sum(c[t]*(n-t)) - C)/(n*C))`. -/
def agcScore (c : List ℤ) : ℚ :=
  let C := c.sum
  let n := c.length
  if C = 0 then 1
  else if n < 2 then 0
  else ((n : ℚ) / ((n : ℚ) - 1)) *
    (1 - ((2 * (((c.enum.map (fun p => p.2 * ((n : ℤ) - (p.1 : ℤ)))).sum : ℤ) : ℚ) - (C : ℚ))
      / ((n : ℚ) * (C : ℚ))))

/-! ## BeautyCoefficient -/

/-- Embedding of `BeautyCoefficient.score`: 0 when `np.sum(c) == 0`; else with
`c0 = c[0]`, `tm = np.argmax(c)`, `ctm = np.max(c)`, returns 0 when `tm == 0`
and otherwise `sum(((ctm-c0)*t/tm + c0 - c[t]) / max(1, c[t]) for t in range(tm+1))`. -/
def bcScore (c : List ℤ) : ℚ :=
  if c.sum = 0 then 0
  else
    let c0 := c.getD 0 0
    let tm := argmaxL c
    let ctm := c.getD tm 0
    if tm = 0 then 0
    else
      ((List.range (tm + 1)).map (fun (t : ℕ) =>
        (((ctm : ℚ) - (c0 : ℚ)) * (t : ℚ) / (tm : ℚ) + (c0 : ℚ) - (c.getD t 0 : ℚ))
          / ((max 1 (c.getD t 0) : ℤ) : ℚ))).sum

/-! ## BeautyCoefficientCumulativePercentage -/

/-- Embedding of `np.cumsum c`: entry `i` is the sum of the first `i+1` elements. -/
def prefix_sums (c : List ℤ) : List ℤ :=
  (List.range c.length).map (fun i => (c.take (i + 1)).sum)

/-- The cumulative-share sequence `np.cumsum(c)/np.sum(c)`. -/
def sharesOf (c : List ℤ) : List ℚ :=
  (prefix_sums c).map (fun (s : ℤ) => (s : ℚ) / (c.sum : ℚ))

/-- Embedding of `BeautyCoefficientCumulativePercentage.score`: 0 when `np.sum(c) == 0`;
else it forms `c_relative = cumsum(c)/sum(c)`, takes `c0 = c_relative[0]`,
`tm = argmax(c_relative)` and returns
`sum((1 - c0)*t/tm + c0 - c_relative[t] for t in range(tm+1))`.
There is no `tm == 0` guard in the source: when `tm = 0` the only term divides
`0.0` by `0`, which yields NaN under numpy float semantics and the NaN is
returned; that non-value outcome is modelled as `none`. -/
def bcpScore (c : List ℤ) : Option ℚ :=
  if c.sum = 0 then some 0
  else
    let rel := sharesOf c
    let c0 := rel.getD 0 0
    let tm := argmaxL rel
    if tm = 0 then none
    else
      some ((List.range (tm + 1)).map (fun (t : ℕ) =>
        (1 - c0) * (t : ℚ) / (tm : ℚ) + c0 - rel.getD t 0)).sum

/-! ## Quartile.get_c50 -/

/-- Embedding of `Quartile.get_c50`: 0 when `np.sum(c) == 0`, else the least index at which
the cumulative share reaches one half (`np.min(np.where(cumsum/sum >= 0.5))`).
When the sum is nonzero the last share is exactly 1, so the index set is
nonempty and the source's `except` branch is unreachable. -/
def get_c50 (c : List ℤ) : ℕ :=
  if c.sum = 0 then 0
  else (sharesOf c).findIdx (fun q => decide ((1 : ℚ) / 2 ≤ q))

/-! ## CitationAngle -/

/-- Midpoint split index `th = int(len(c)/2)`. -/
def caTh (c : List ℤ) : ℕ := c.length / 2

/-- Embedding of `t1 = np.argmax(c[:th])`: peak offset of the first half. -/
def caT1 (c : List ℤ) : ℕ := argmaxL (c.take (caTh c))

/-- Embedding of `t2 = th + np.argmax(c[th:])`: absolute peak offset of the second half. -/
def caT2 (c : List ℤ) : ℕ := caTh c + argmaxL (c.drop (caTh c))

/-- Embedding of `peak2 = np.max(c[th:])` (second half is nonempty whenever `len(c) > 10`;
the `0` default for an empty second half is never reached by `extract`). -/
def caPeak2 (c : List ℤ) : ℤ :=
  match c.drop (caTh c) with
  | [] => 0
  | x :: t => listMax1 x t

/-- Embedding of `ac1 = np.average(c[:th])`: mean citation of the first half. -/
noncomputable def caAc1 (c : List ℤ) : ℝ :=
  ((c.take (caTh c)).sum : ℝ) / (caTh c : ℝ)

/-- Embedding of `CitationAngle.extract`: `False` when `len(c) <= 10`; otherwise the
conjunction of the four threshold checks, with the citation angle computed as
`np.degrees(np.arctan(peak2/t2)) = arctan(peak2/t2) * 180/pi`. -/
def citationAngleExtract (c : List ℤ)
    (cBeforeAverage cPeak angleAfter span : ℝ) : Prop :=
  if c.length ≤ 10 then False
  else
    ((caPeak2 c : ℝ) > cPeak) ∧
    (Real.arctan ((caPeak2 c : ℝ) / (caT2 c : ℝ)) * (180 / Real.pi) > angleAfter) ∧
    (caAc1 c ≤ cBeforeAverage) ∧
    ((caT2 c : ℝ) - (caT1 c : ℝ) ≥ span)

/-! ## DNIC -/

/-- Rows of the DataFrame `pd.DataFrame([c_list, subjs_list, year_list]).T`:
paper = (citation history, subject list, publication year). -/
def ekjRows (cl : List (List ℤ)) (sl : List (List String)) (yl : List ℤ) :
    List (List ℤ × List String × ℤ) :=
  cl.zip (sl.zip yl)

/-- The papers selected by `df[(df['year']<=year)&(df['subjs'].map(lambda x: subj in x))]`. -/
def ekjTargets (cl : List (List ℤ)) (sl : List (List String)) (yl : List ℤ)
    (subj : String) (year : ℤ) : List (List ℤ × List String × ℤ) :=
  (ekjRows cl sl yl).filter (fun r => decide (r.2.2 ≤ year) && decide (subj ∈ r.2.1))

/-- Citation a paper row received in absolute year `year`:
`row['c'][year - row['year']]`.  Callers only apply this with
`row['year'] <= year` and histories long enough to cover `year`
(otherwise the Python indexing would raise), so `getD _ 0` is exact there. -/
def ekjCit (year : ℤ) (r : List ℤ × List String × ℤ) : ℤ :=
  r.1.getD (year - r.2.2).toNat 0

/-- Embedding of `DNIC.get_ekj`, viewed as the lookup function of the dictionary it builds:
the key `(subj, year)` is present iff `year` occurs in `year_list` and the
target set is nonempty; its value is `-1` when no target has a citation `>= 1`
in that absolute year (`N_kj == 0`) and otherwise
`citations_kj.sum() / N_kj`. -/
def get_ekj (cl : List (List ℤ)) (sl : List (List String)) (yl : List ℤ)
    (subj : String) (year : ℤ) : Option ℚ :=
  if year ∈ yl ∧ ekjTargets cl sl yl subj year ≠ [] then
    let cits := (ekjTargets cl sl yl subj year).map (ekjCit year)
    let N := (cits.filter (fun x => decide (1 ≤ x))).length
    if N = 0 then some (-1) else some ((cits.sum : ℚ) / (N : ℚ))
  else none

/-- The qualifying papers for cell `(subj, year)` in the words of the spec:
published on or before `year`, tagged with `subj`, and with at least one
citation in that absolute year. -/
def ekjQualifying (cl : List (List ℤ)) (sl : List (List String)) (yl : List ℤ)
    (subj : String) (year : ℤ) : List (List ℤ × List String × ℤ) :=
  (ekjRows cl sl yl).filter
    (fun r => decide (r.2.2 ≤ year) && decide (subj ∈ r.2.1) && decide (1 ≤ ekjCit year r))

/-- The normalized citation values examined before the peak by `DNIC.extract`:
`[c[i-year]/ekj_dic[(subj,i)] for i in range(year, y_peak-2)]`, i.e. offsets
`0 .. t_peak-3`.  A missing dictionary key raises (KeyError) and a zero
baseline value raises (ZeroDivisionError); both are modelled by `none`. -/
def dnicBeforeVals (c : List ℤ) (year : ℤ) (ekj : String × ℤ → Option ℚ)
    (subj : String) (tPeak : ℕ) : Option (List ℚ) :=
  traverseOpt (fun (i : ℕ) =>
      (ekj (subj, year + (i : ℤ))).bind (fun e =>
        if e = 0 then none else some ((c.getD i 0 : ℚ) / e)))
    (List.range (tPeak - 2))

/-- The `for subj in subjs` loop body of `DNIC.extract`.  For each subject it
looks up the peak-year baseline (KeyError -> `none`), tests
`c_peak_v / e > c_peak`, and when that holds takes `max` of the before-peak
normalized values (`max([])` on an empty range raises -> `none`), returning
`True` when that maximum stays below `c_before_peak`. -/
def dnicLoop (c : List ℤ) (year : ℤ) (ekj : String × ℤ → Option ℚ)
    (cPeak cBeforePeak : ℚ) (tPeak : ℕ) : List String → Option Bool
  | [] => some false
  | subj :: rest =>
    match ekj (subj, year + (tPeak : ℤ)) with
    | none => none
    | some e =>
      if e = 0 then none
      else if cPeak < (c.getD tPeak 0 : ℚ) / e then
        match (dnicBeforeVals c year ekj subj tPeak).bind
            (fun vals => match vals with
              | [] => none
              | x :: t => some (listMax1 x t)) with
        | none => none
        | some m =>
          if m < cBeforePeak then some true
          else dnicLoop c year ekj cPeak cBeforePeak tPeak rest
      else dnicLoop c year ekj cPeak cBeforePeak tPeak rest

/-- Embedding of `DNIC.extract`.  Here `np.argmax` of an empty history raises (`none`); when the
peak offset is not in the strict second half (`t_h >= t_peak`) the subject
loop is skipped and the paper is not a hibernator. -/
def dnicExtract (c : List ℤ) (subjs : List String) (year : ℤ)
    (ekj : String × ℤ → Option ℚ) (cPeak cBeforePeak : ℚ) : Option Bool :=
  if c = [] then none
  else if c.length / 2 < argmaxL c then
    dnicLoop c year ekj cPeak cBeforePeak (argmaxL c) subjs
  else some false

/-- The before-peak normalized values in the words of claim C1 (same range of
years as the source, baseline read through `getD`, meaningful under a total
baseline table). -/
def dnicSpecBefore (c : List ℤ) (year : ℤ) (ekj : String × ℤ → Option ℚ)
    (subj : String) : List ℚ :=
  (List.range (argmaxL c - 2)).map
    (fun (i : ℕ) => (c.getD i 0 : ℚ) / (ekj (subj, year + (i : ℤ))).getD 0)

/-- The classification condition asserted by claim C1: some subject has its
normalized peak above `c_peak` and the maximum normalized value before the
peak below `c_before_peak`. -/
def dnicSpecCond (c : List ℤ) (subjs : List String) (year : ℤ)
    (ekj : String × ℤ → Option ℚ) (cPeak cBeforePeak : ℚ) : Bool :=
  subjs.any (fun subj =>
    decide (cPeak < (c.getD (argmaxL c) 0 : ℚ) /
        (ekj (subj, year + (argmaxL c : ℤ))).getD 0) &&
    match dnicSpecBefore c year ekj subj with
    | [] => false
    | x :: t => decide (listMax1 x t < cBeforePeak))

/-! ## ExponentialQuartile -/

/-- Integer test for `cw > np.sqrt(x)` with `cw` an integer and `x = k*ns` an
integer radicand: for `x >= 0` this is `cw >= 0` and `x < cw^2`; for `x < 0`
the float square root is NaN and the comparison is `False`. -/
def gtSqrt (cw x : ℤ) : Bool :=
  decide (0 ≤ x) && decide (0 ≤ cw) && decide (x < cw * cw)

/-- Embedding of `ExponentialQuartile.extract`: `nw = int(n*0.2)` (equal to `n / 5` for
representable sizes), `ns = n - nw`; `np.max` of an empty slice raises
(`none`, happens exactly when `n < 5`); else
`(cw > 4*cs) & (cw > sqrt(k*ns))`. -/
def exponentialQuartileExtract (c : List ℤ) (k : ℤ) : Option Bool :=
  let n := c.length
  let ns := n - n / 5
  match c.take ns, c.drop ns with
  | [], _ => none
  | _, [] => none
  | x :: t, y :: u =>
    some (decide (4 * listMax1 x t < listMax1 y u) &&
      gtSqrt (listMax1 y u) (k * (ns : ℤ)))

/-! ## KValue -/

/-- Embedding of `KValue.score`: uses only `c20 = c[:21]`; returns `0.0` when
`sum(c20) == 0`, else `sqrt(sum(i**2 * ct for i,ct in enumerate(c20)) / sum(c20)) / 20`. -/
noncomputable def kvalueScore (c : List ℤ) : ℝ :=
  let c20 := c.take 21
  if c20.sum = 0 then 0
  else
    Real.sqrt (((Finset.range c20.length).sum
        (fun i => (i : ℤ) ^ 2 * c20.getD i 0) : ℤ) / (c20.sum : ℝ)) / 20

/-! ## Quartile.get_c_dic and Quartile.extract -/

/-- Rows of `pd.DataFrame([c50_list, subjs_list, year_list]).T`:
(c50 value, subject list, publication year). -/
def cdicRows (c50l : List ℤ) (sl : List (List String)) (yl : List ℤ) :
    List (ℤ × List String × ℤ) :=
  c50l.zip (sl.zip yl)

/-- The group selected by `df[(df['year']==year)&(df['subjs'].map(lambda x: subj in x))]`. -/
def cdicTargets (c50l : List ℤ) (sl : List (List String)) (yl : List ℤ)
    (subj : String) (year : ℤ) : List (ℤ × List String × ℤ) :=
  (cdicRows c50l sl yl).filter (fun r => decide (r.2.2 = year) && decide (subj ∈ r.2.1))

/-- Embedding of `Quartile.get_c_dic`, viewed as the lookup function of the dictionary it
builds: for a nonempty `(subj, year)` group it sorts the group by `c50`
ascending and picks the value at positional index `int(len(targets)*rate)`
(equal to `⌊len*rate⌋` for the nonnegative rates the function is used with). -/
def get_c_dic (c50l : List ℤ) (sl : List (List String)) (yl : List ℤ)
    (rate : ℚ) (subj : String) (year : ℤ) : Option ℤ :=
  let t := cdicTargets c50l sl yl subj year
  if t = [] then none
  else
    some (((t.map (fun r => r.1)).insertionSort (fun a b => a ≤ b)).getD
      (Int.toNat ⌊(t.length : ℚ) * rate⌋) 0)

/-- The per-subject scores of `Quartile.extract`:
`[1 if c50 < before[(subj,year)] else 3 if c50 > after[(subj,year)] else 2
  for subj in subjs]`, with a KeyError (`none`) on any missing key; the
`after` dictionary is only consulted when the first comparison fails, exactly
as in the conditional expression. -/
def quartileScores (c50 : ℤ) (year : ℤ)
    (before afterD : String × ℤ → Option ℤ) : List String → Option (List ℤ)
  | [] => some []
  | subj :: rest =>
    match before (subj, year) with
    | none => none
    | some b =>
      if c50 < b then
        (quartileScores c50 year before afterD rest).map (fun l => 1 :: l)
      else
        match afterD (subj, year) with
        | none => none
        | some a =>
          (quartileScores c50 year before afterD rest).map
            (fun l => (if a < c50 then 3 else 2) :: l)

/-- Embedding of `Quartile.extract`: mean of the per-subject scores compared with `2.5`
(`np.mean` of an empty list is NaN and `NaN >= 2.5` is `False`; the rational
convention `0/0 = 0` gives the same `False`). -/
def quartileExtract (c50 : ℤ) (subjs : List String) (year : ℤ)
    (before afterD : String × ℤ → Option ℤ) : Option Bool :=
  (quartileScores c50 year before afterD subjs).map
    (fun l => decide ((5 : ℚ) / 2 ≤ (l.sum : ℚ) / (l.length : ℚ)))

/-! ## Claim theorems -/

/-- C5: for every citation history (including the empty one) whose total is 0,
`AdjustedGiniCoefficient.score` returns `1.0`, `BeautyCoefficient.score`
returns `0`, `BeautyCoefficientCumulativePercentage.score` returns `0`, and
`Quartile.get_c50` returns `0`; none of the four raises (the first, second and
fourth are total functions of the embedding, and the third returns a value). -/
theorem C5_zero_sum_sentinels (c : List ℤ) (h : c.sum = 0) :
    agcScore c = 1 ∧ bcScore c = 0 ∧ bcpScore c = some 0 ∧ get_c50 c = 0 := by
  refine ⟨?_, ?_, ?_, ?_⟩
  · simp [agcScore, h]
  · simp [bcScore, h]
  · simp [bcpScore, h]
  · simp [get_c50, h]

theorem C5_zero_sum_sentinels_witness :
    (List.sum ([] : List ℤ) = 0 ∧
      (agcScore [] = 1 ∧ bcScore [] = 0 ∧ bcpScore [] = some 0 ∧ get_c50 [] = 0)) ∧
    (List.sum ([1, -1] : List ℤ) = 0 ∧
      (agcScore [1, -1] = 1 ∧ bcScore [1, -1] = 0 ∧ bcpScore [1, -1] = some 0 ∧
        get_c50 [1, -1] = 0)) :=
  ⟨⟨by decide, C5_zero_sum_sentinels [] (by decide)⟩,
   ⟨by decide, C5_zero_sum_sentinels [1, -1] (by decide)⟩⟩

/-- C4: whenever `DNIC.extract` or `Quartile.extract` actually performs a
baseline lookup on a key absent from the supplied dictionary, the call raises
(`none`) instead of returning a boolean.  The four conjuncts cover the four
lookup sites: the peak-year `ekj_dic` lookup of `DNIC.extract` (performed for
the first subject as soon as the peak is in the strict second half), the
`ekj_dic` lookups inside the before-peak comprehension (performed once the
peak test passes: a missing key at any offset `i` of the range raises), the
`c_dic_before` lookup of `Quartile.extract` (always performed), and the
`c_dic_after` lookup (performed when the `before` comparison fails). -/
theorem C4_missing_key_raises (c : List ℤ) (s : String) (rest : List String)
    (year : ℤ) (ekj : String × ℤ → Option ℚ) (cp cbp : ℚ) (e : ℚ) (i : ℕ)
    (c50 b : ℤ) (s2 : String) (rest2 : List String) (year2 : ℤ)
    (before afterD : String × ℤ → Option ℤ) :
    (c.length / 2 < argmaxL c → ekj (s, year + (argmaxL c : ℤ)) = none →
      dnicExtract c (s :: rest) year ekj cp cbp = none) ∧
    (c.length / 2 < argmaxL c → ekj (s, year + (argmaxL c : ℤ)) = some e →
      e ≠ 0 → cp < (c.getD (argmaxL c) 0 : ℚ) / e → i < argmaxL c - 2 →
      ekj (s, year + (i : ℤ)) = none →
      dnicExtract c (s :: rest) year ekj cp cbp = none) ∧
    (before (s2, year2) = none →
      quartileExtract c50 (s2 :: rest2) year2 before afterD = none) ∧
    (before (s2, year2) = some b → ¬ c50 < b → afterD (s2, year2) = none →
      quartileExtract c50 (s2 :: rest2) year2 before afterD = none) := by
  refine ⟨fun h1 h2 => ?_, fun h1 he hne hcond hi hik => ?_, fun h => ?_,
    fun hb hn ha => ?_⟩
  · cases c with
    | nil => simp [argmaxL] at h1
    | cons x t =>
      rw [dnicExtract, if_neg (by simp), if_pos h1]
      simp [dnicLoop, h2]
  · cases c with
    | nil => simp [argmaxL] at h1
    | cons x t =>
      rw [dnicExtract, if_neg (by simp), if_pos h1]
      rw [dnicLoop, he]
      dsimp only
      rw [if_neg hne, if_pos hcond]
      have hbv : dnicBeforeVals (x :: t) year ekj s (argmaxL (x :: t)) = none := by
        unfold dnicBeforeVals
        apply traverseOpt_eq_none_of_mem _ _ i (List.mem_range.mpr hi)
        rw [hik]
        rfl
      rw [hbv]
      rfl
  · simp [quartileExtract, quartileScores, h]
  · simp [quartileExtract, quartileScores, hb, if_neg hn, ha]

theorem C4_missing_key_raises_witness :
    ((List.length [(0 : ℤ), 0, 5] / 2 < argmaxL [(0 : ℤ), 0, 5]) ∧
      dnicExtract [0, 0, 5] [("x")] 0 (fun _ => none) 0 0 = none) ∧
    ((List.length [(0 : ℤ), 0, 0, 10] / 2 < argmaxL [(0 : ℤ), 0, 0, 10]) ∧
      (fun kk : String × ℤ => if kk.2 = 3 then some (1 : ℚ) else none)
        (("x"), 0 + (argmaxL [(0 : ℤ), 0, 0, 10] : ℤ)) = some 1 ∧
      (0 : ℕ) < argmaxL [(0 : ℤ), 0, 0, 10] - 2 ∧
      (fun kk : String × ℤ => if kk.2 = 3 then some (1 : ℚ) else none)
        (("x"), 0 + ((0 : ℕ) : ℤ)) = none ∧
      dnicExtract [0, 0, 0, 10] [("x")] 0
        (fun kk => if kk.2 = 3 then some 1 else none) 0 0 = none) ∧
    quartileExtract 0 [("x")] 0 (fun _ => none) (fun _ => some 0) = none ∧
    ((¬ (5 : ℤ) < 0) ∧
      quartileExtract 5 [("x")] 0 (fun _ => some 0) (fun _ => none) = none) :=
  ⟨⟨by decide,
    (C4_missing_key_raises [0, 0, 5] "x" [] 0 (fun _ => none) 0 0 0 0
      0 0 "x" [] 0 (fun _ => none) (fun _ => some 0)).1 (by decide) rfl⟩,
   ⟨by decide, by decide, by decide, by decide,
    (C4_missing_key_raises [0, 0, 0, 10] "x" [] 0
      (fun kk => if kk.2 = 3 then some 1 else none) 0 0 1 0
      0 0 "x" [] 0 (fun _ => none) (fun _ => some 0)).2.1 (by decide)
      (by decide) one_ne_zero
      (by rw [show argmaxL [(0 : ℤ), 0, 0, 10] = 3 from by decide]; norm_num)
      (by decide) (by decide)⟩,
   (C4_missing_key_raises [] "x" [] 0 (fun _ => none) 0 0 0 0
      0 0 "x" [] 0 (fun _ => none) (fun _ => some 0)).2.2.1 rfl,
   ⟨by decide,
    (C4_missing_key_raises [] "x" [] 0 (fun _ => none) 0 0 0 0
      5 0 "x" [] 0 (fun _ => some 0) (fun _ => none)).2.2.2 rfl (by decide) rfl⟩⟩

/-- C6: `ExponentialQuartile.extract` is antitone in the hyperparameter `k`:
for a fixed history and valid (nonnegative) hyperparameters `k1 <= k2`, if the
paper is classified a hibernator at `k2` it is also one at `k1`. -/
theorem C6_exponential_quartile_antitone (c : List ℤ) (k1 k2 : ℤ)
    (hk1 : 0 ≤ k1) (hk12 : k1 ≤ k2)
    (h : exponentialQuartileExtract c k2 = some true) :
    exponentialQuartileExtract c k1 = some true := by
  simp only [exponentialQuartileExtract] at h ⊢
  cases e1 : c.take (c.length - c.length / 5) with
  | nil => rw [e1] at h; exact absurd h (by simp)
  | cons x t =>
    cases e2 : c.drop (c.length - c.length / 5) with
    | nil => rw [e1, e2] at h; exact absurd h (by simp)
    | cons y u =>
      rw [e1, e2] at h
      have h' : (decide (4 * listMax1 x t < listMax1 y u) &&
          gtSqrt (listMax1 y u) (k2 * ((c.length - c.length / 5 : ℕ) : ℤ))) = true :=
        Option.some.inj h
      refine congrArg some ?_
      rw [Bool.and_eq_true] at h'
      rw [Bool.and_eq_true]
      refine ⟨h'.1, ?_⟩
      have h2 := h'.2
      unfold gtSqrt at h2 ⊢
      rw [Bool.and_eq_true, Bool.and_eq_true] at h2
      rw [Bool.and_eq_true, Bool.and_eq_true]
      rcases h2 with ⟨⟨hx, hcw⟩, hlt⟩
      have hns : (0 : ℤ) ≤ ((c.length - c.length / 5 : ℕ) : ℤ) := Int.natCast_nonneg _
      refine ⟨⟨?_, hcw⟩, ?_⟩
      · exact decide_eq_true (mul_nonneg hk1 hns)
      · have : k1 * ((c.length - c.length / 5 : ℕ) : ℤ)
            ≤ k2 * ((c.length - c.length / 5 : ℕ) : ℤ) :=
          mul_le_mul_of_nonneg_right hk12 hns
        exact decide_eq_true (lt_of_le_of_lt this (of_decide_eq_true hlt))

theorem C6_exponential_quartile_antitone_witness :
    ((0 : ℤ) ≤ 1 ∧ (1 : ℤ) ≤ 2) ∧
    exponentialQuartileExtract [0, 0, 0, 0, 10] 2 = some true ∧
    exponentialQuartileExtract [0, 0, 0, 0, 10] 1 = some true :=
  ⟨⟨by decide, by decide⟩, by decide,
   C6_exponential_quartile_antitone [0, 0, 0, 0, 10] 1 2 (by decide) (by decide)
     (by decide)⟩

/-- One-step characterization of the `for subj in subjs` loop of
`DNIC.extract` under a total, zero-free baseline: when the loop returns a
boolean, that boolean is `true` exactly when some subject passes both the
peak test and the before-peak test. -/
theorem dnicLoop_char (c : List ℤ) (year : ℤ) (ekj : String × ℤ → Option ℚ)
    (cp cbp : ℚ) (tPeak : ℕ)
    (htot : ∀ kk, (ekj kk).isSome = true)
    (hnz : ∀ kk e, ekj kk = some e → e ≠ 0) :
    ∀ (subjs : List String) (b : Bool),
      dnicLoop c year ekj cp cbp tPeak subjs = some b →
      (b = true ↔ subjs.any (fun s =>
        decide (cp < (c.getD tPeak 0 : ℚ) / (ekj (s, year + (tPeak : ℤ))).getD 0) &&
        match (List.range (tPeak - 2)).map
            (fun (i : ℕ) => (c.getD i 0 : ℚ) / (ekj (s, year + (i : ℤ))).getD 0) with
        | [] => false
        | x :: t => decide (listMax1 x t < cbp)) = true) := by
  intro subjs
  induction subjs with
  | nil =>
    intro b hb
    have hb' : b = false := (Option.some.inj hb).symm
    subst hb'
    simp
  | cons s rest ih =>
    intro b hb
    obtain ⟨e, he⟩ := Option.isSome_iff_exists.mp (htot (s, year + (tPeak : ℤ)))
    have hne : e ≠ 0 := hnz _ e he
    have hgetD : (ekj (s, year + (tPeak : ℤ))).getD 0 = e := by rw [he]; rfl
    rw [dnicLoop, he] at hb
    dsimp only at hb
    rw [if_neg hne] at hb
    have hbv : dnicBeforeVals c year ekj s tPeak =
        some ((List.range (tPeak - 2)).map
          (fun (i : ℕ) => (c.getD i 0 : ℚ) / (ekj (s, year + (i : ℤ))).getD 0)) := by
      apply traverseOpt_eq_map
      intro i hi
      obtain ⟨ei, hei⟩ := Option.isSome_iff_exists.mp (htot (s, year + (i : ℤ)))
      have hnei : ei ≠ 0 := hnz _ ei hei
      rw [hei]
      simp [hnei]
    by_cases hcond : cp < (c.getD tPeak 0 : ℚ) / e
    · rw [if_pos hcond] at hb
      rw [hbv] at hb
      cases hL : (List.range (tPeak - 2)).map
          (fun (i : ℕ) => (c.getD i 0 : ℚ) / (ekj (s, year + (i : ℤ))).getD 0) with
      | nil =>
        rw [hL] at hb
        exact Option.noConfusion hb
      | cons x t =>
        rw [hL] at hb
        have hb2 : (if listMax1 x t < cbp then some true
            else dnicLoop c year ekj cp cbp tPeak rest) = some b := hb
        clear hb
        rename' hb2 => hb
        by_cases hm : listMax1 x t < cbp
        · rw [if_pos hm] at hb
          have hb' : b = true := (Option.some.inj hb).symm
          subst hb'
          simp only [List.any_cons, Bool.or_eq_true, true_iff]
          left
          rw [hL, hgetD]
          simp only [Bool.and_eq_true, decide_eq_true_eq]
          exact ⟨hcond, hm⟩
        · rw [if_neg hm] at hb
          have hrest := ih b hb
          rw [hrest]
          simp only [List.any_cons, Bool.or_eq_true]
          constructor
          · exact fun hr => Or.inr hr
          · rintro (hs | hr)
            · rw [hL] at hs
              simp only [Bool.and_eq_true, decide_eq_true_eq] at hs
              exact absurd hs.2 hm
            · exact hr
    · rw [if_neg hcond] at hb
      have hrest := ih b hb
      rw [hrest]
      simp only [List.any_cons, Bool.or_eq_true]
      constructor
      · exact fun hr => Or.inr hr
      · rintro (hs | hr)
        · simp only [Bool.and_eq_true, decide_eq_true_eq] at hs
          rw [hgetD] at hs
          exact absurd hs.1 hcond
        · exact hr

/-- C1 (amended): the claim as stated omits the gate `len(c)//2 < t_peak`
(peak strictly in the second half of the history), which `DNIC.extract`
checks before looking at any subject, and it overlooks that the call raises
rather than classifying when the inner range of before-peak years is empty.
Amended statement: under a baseline table defined (and nonzero, so that no
float division raises) on all keys, whenever `DNIC.extract` returns a boolean
at all, it returns `True` iff the peak offset is strictly greater than
`len(c)//2` AND for at least one subject the peak citation normalized by the
baseline at the peak's absolute year exceeds `c_peak` while the maximum
normalized value over the years from publication up to (exclusive) two years
before the peak year stays below `c_before_peak`. -/
theorem C1_dnic_extract_characterization (c : List ℤ) (subjs : List String)
    (year : ℤ) (ekj : String × ℤ → Option ℚ) (cp cbp : ℚ) (b : Bool)
    (htot : ∀ kk, (ekj kk).isSome = true)
    (hnz : ∀ kk e, ekj kk = some e → e ≠ 0)
    (hb : dnicExtract c subjs year ekj cp cbp = some b) :
    b = true ↔
      (c.length / 2 < argmaxL c ∧ dnicSpecCond c subjs year ekj cp cbp = true) := by
  cases c with
  | nil => exact Option.noConfusion hb
  | cons x t =>
    rw [dnicExtract, if_neg (by simp)] at hb
    by_cases hh : (x :: t).length / 2 < argmaxL (x :: t)
    · rw [if_pos hh] at hb
      have hiff := dnicLoop_char (x :: t) year ekj cp cbp (argmaxL (x :: t))
        htot hnz subjs b hb
      rw [hiff]
      constructor
      · intro hany
        exact ⟨hh, hany⟩
      · intro hconj
        exact hconj.2
    · rw [if_neg hh] at hb
      have hb' : b = false := (Option.some.inj hb).symm
      subst hb'
      exact iff_of_false (by simp) (fun hconj => hh hconj.1)

/-- C1 counterexample: for the history `[0,0,0,10,0,0,0,0]` (peak at offset 3,
half-length 4, so the peak is NOT in the strict second half) with a total
all-ones baseline, thresholds `c_peak = c_before_peak = 1`, the claim's
condition holds for the only subject (normalized peak 10 > 1, max normalized
value before the peak 0 < 1) and yet `DNIC.extract` returns `False`, refuting
the claim as stated. -/
theorem C1_counterexample :
    ¬ ((∀ kk : String × ℤ, ((fun _ : String × ℤ => some (1 : ℚ)) kk).isSome = true) →
      (dnicExtract [0, 0, 0, 10, 0, 0, 0, 0] [("s")] 0 (fun _ => some 1) 1 1
          = some true ↔
        dnicSpecCond [0, 0, 0, 10, 0, 0, 0, 0] [("s")] 0 (fun _ => some 1) 1 1
          = true)) := by
  intro h
  have hfalse : dnicExtract [0, 0, 0, 10, 0, 0, 0, 0] [("s")] 0
      (fun _ => some 1) 1 1 = some false := by
    rw [dnicExtract, if_neg (by simp)]
    norm_num [argmaxL, listMax1]
  have h2 := h (fun _ => rfl)
  have h3 := h2.mpr
    (by norm_num [dnicSpecCond, dnicSpecBefore, argmaxL, listMax1, List.range_succ])
  rw [hfalse] at h3
  simp at h3

theorem C1_dnic_extract_characterization_witness :
    dnicExtract [0, 0, 0, 0, 0, 0, 0, 0, 10] [("s")] 0 (fun _ => some 1) 1 1
        = some true ∧
    (true = true ↔
      (List.length [(0 : ℤ), 0, 0, 0, 0, 0, 0, 0, 10] / 2
          < argmaxL [(0 : ℤ), 0, 0, 0, 0, 0, 0, 0, 10] ∧
        dnicSpecCond [0, 0, 0, 0, 0, 0, 0, 0, 10] [("s")] 0 (fun _ => some 1) 1 1
          = true)) := by
  have hext : dnicExtract [0, 0, 0, 0, 0, 0, 0, 0, 10] [("s")] 0
      (fun _ => some 1) 1 1 = some true := by
    rw [dnicExtract, if_neg (by simp)]
    norm_num [dnicLoop, dnicBeforeVals, traverseOpt, argmaxL, listMax1,
      List.range_succ]
  exact ⟨hext,
    C1_dnic_extract_characterization [0, 0, 0, 0, 0, 0, 0, 0, 10] [("s")] 0
      (fun _ => some 1) 1 1 true (fun _ => rfl)
      (fun kk e hsome => by cases hsome; exact one_ne_zero) hext⟩

/-- Helper for C10: with the peak offset below 3 the before-peak range
`range(year, y_peak-2)` is empty, so as soon as some subject passes the peak
test the loop evaluates `max([])`, which raises. -/
theorem dnicLoop_none_of_small_peak (c : List ℤ) (year : ℤ)
    (ekj : String × ℤ → Option ℚ) (cp cbp : ℚ) (tPeak : ℕ)
    (htot : ∀ kk, (ekj kk).isSome = true) (hsmall : tPeak < 3) :
    ∀ subjs : List String,
      (∃ s ∈ subjs,
        cp < (c.getD tPeak 0 : ℚ) / (ekj (s, year + (tPeak : ℤ))).getD 0) →
      dnicLoop c year ekj cp cbp tPeak subjs = none := by
  intro subjs
  induction subjs with
  | nil =>
    rintro ⟨s, hs, _⟩
    cases hs
  | cons s0 rest ih =>
    rintro ⟨s, hs, hlt⟩
    obtain ⟨e, he⟩ := Option.isSome_iff_exists.mp (htot (s0, year + (tPeak : ℤ)))
    rw [dnicLoop, he]
    dsimp only
    by_cases hez : e = 0
    · rw [if_pos hez]
    · rw [if_neg hez]
      have hrange : List.range (tPeak - 2) = [] := by
        have h0 : tPeak - 2 = 0 := by omega
        rw [h0]
        rfl
      have hbv : dnicBeforeVals c year ekj s0 tPeak = some [] := by
        unfold dnicBeforeVals
        rw [hrange]
        rfl
      by_cases hcond : cp < (c.getD tPeak 0 : ℚ) / e
      · rw [if_pos hcond, hbv]
        rfl
      · rw [if_neg hcond]
        rcases List.mem_cons.mp hs with rfl | hmem
        · rw [he] at hlt
          exact absurd hlt (by simpa using hcond)
        · exact ih ⟨s, hmem, hlt⟩

/-- C10: there are well-formed inputs on which `DNIC.extract` raises instead
of returning a boolean: whenever the peak offset satisfies
`len(c)//2 < t_peak < 3` and some subject's normalized peak exceeds `c_peak`
(its baseline keys being present), the inner `max` ranges over the empty
sequence of years `range(year, y_peak-2)` and raises. -/
theorem C10_dnic_extract_raises_on_empty_range (c : List ℤ)
    (subjs : List String) (year : ℤ) (ekj : String × ℤ → Option ℚ)
    (cp cbp : ℚ)
    (htot : ∀ kk, (ekj kk).isSome = true)
    (hh : c.length / 2 < argmaxL c) (hsmall : argmaxL c < 3)
    (hex : ∃ s ∈ subjs,
      cp < (c.getD (argmaxL c) 0 : ℚ) / (ekj (s, year + (argmaxL c : ℤ))).getD 0) :
    dnicExtract c subjs year ekj cp cbp = none := by
  cases c with
  | nil => simp [argmaxL] at hh
  | cons x t =>
    rw [dnicExtract, if_neg (by simp), if_pos hh]
    exact dnicLoop_none_of_small_peak (x :: t) year ekj cp cbp
      (argmaxL (x :: t)) htot hsmall subjs hex

theorem C10_dnic_extract_raises_on_empty_range_witness :
    (List.length [(0 : ℤ), 0, 5] / 2 < argmaxL [(0 : ℤ), 0, 5] ∧
      argmaxL [(0 : ℤ), 0, 5] < 3 ∧
      (∃ s ∈ [("s")], (1 : ℚ) <
        (([(0 : ℤ), 0, 5].getD (argmaxL [(0 : ℤ), 0, 5]) 0 : ℤ) : ℚ) /
          (((fun _ : String × ℤ => some (1 : ℚ))
            (s, 2000 + (argmaxL [(0 : ℤ), 0, 5] : ℤ))).getD 0))) ∧
    dnicExtract [0, 0, 5] [("s")] 2000 (fun _ => some 1) 1 2 = none := by
  have hex : ∃ s ∈ [("s")], (1 : ℚ) <
      (([(0 : ℤ), 0, 5].getD (argmaxL [(0 : ℤ), 0, 5]) 0 : ℤ) : ℚ) /
        (((fun _ : String × ℤ => some (1 : ℚ))
          (s, 2000 + (argmaxL [(0 : ℤ), 0, 5] : ℤ))).getD 0) :=
    ⟨"s", by simp, by norm_num [argmaxL, listMax1]⟩
  exact ⟨⟨by decide, by decide, hex⟩,
    C10_dnic_extract_raises_on_empty_range [0, 0, 5] [("s")] 2000
      (fun _ => some 1) 1 2 (fun _ => rfl) (by decide) (by decide) hex⟩

/-! ## Lemmas about the cumulative-share sequence, for C3 -/

theorem sharesOf_eq_map_range (c : List ℤ) :
    sharesOf c = (List.range c.length).map
      (fun i => ((c.take (i + 1)).sum : ℚ) / (c.sum : ℚ)) := by
  unfold sharesOf prefix_sums
  rw [List.map_map]
  rfl

theorem sharesOf_length (c : List ℤ) : (sharesOf c).length = c.length := by
  rw [sharesOf_eq_map_range]
  simp

theorem sharesOf_ne_nil (c : List ℤ) (hne : c ≠ []) : sharesOf c ≠ [] := by
  intro h
  apply hne
  have hlen := sharesOf_length c
  rw [h] at hlen
  exact List.length_eq_zero.mp hlen.symm

theorem sum_take_le_sum (c : List ℤ) (h : ∀ x ∈ c, 0 ≤ x) (n : ℕ) :
    (c.take n).sum ≤ c.sum := by
  conv_rhs => rw [← List.take_append_drop n c]
  rw [List.sum_append]
  have hd : 0 ≤ (c.drop n).sum :=
    List.sum_nonneg (fun x hx => h x (List.mem_of_mem_drop hx))
  linarith

theorem sum_pos_of_nonneg (c : List ℤ) (h : ∀ x ∈ c, 0 ≤ x) (hs : c.sum ≠ 0) :
    0 < c.sum :=
  lt_of_le_of_ne (List.sum_nonneg h) (Ne.symm hs)

theorem sharesOf_mem_le_one (c : List ℤ) (h : ∀ x ∈ c, 0 ≤ x)
    (hs : c.sum ≠ 0) : ∀ q ∈ sharesOf c, q ≤ 1 := by
  intro q hq
  have hpos : (0 : ℤ) < c.sum := sum_pos_of_nonneg c h hs
  rw [sharesOf_eq_map_range] at hq
  obtain ⟨i, hi, rfl⟩ := List.mem_map.mp hq
  rw [div_le_one (by exact_mod_cast hpos)]
  exact_mod_cast sum_take_le_sum c h (i + 1)

theorem one_mem_sharesOf (c : List ℤ) (hne : c ≠ []) (hs : c.sum ≠ 0) :
    (1 : ℚ) ∈ sharesOf c := by
  have hpos : 0 < c.length := List.length_pos.mpr hne
  rw [sharesOf_eq_map_range]
  refine List.mem_map.mpr ⟨c.length - 1, List.mem_range.mpr (by omega), ?_⟩
  have hlen : c.length - 1 + 1 = c.length := by omega
  rw [hlen, List.take_length]
  exact div_self (by exact_mod_cast hs)

/-- For a nonnegative history with nonzero total, the maximum of the
cumulative-share sequence is exactly 1 (the last share). -/
theorem sharesOf_max_eq_one (c : List ℤ) (hnn : ∀ x ∈ c, 0 ≤ x)
    (hs : c.sum ≠ 0) :
    (sharesOf c).getD (argmaxL (sharesOf c)) 0 = 1 := by
  have hne : c ≠ [] := by
    intro h
    subst h
    simp at hs
  obtain ⟨x, t, hxt⟩ := List.exists_cons_of_ne_nil (sharesOf_ne_nil c hne)
  rw [hxt, getD_argmaxL]
  have hmem : listMax1 x t ∈ sharesOf c := by
    rw [hxt]
    exact listMax1_mem x t
  have hle : listMax1 x t ≤ 1 := sharesOf_mem_le_one c hnn hs _ hmem
  have hge : (1 : ℚ) ≤ listMax1 x t := by
    have h1 : (1 : ℚ) ∈ x :: t := hxt ▸ one_mem_sharesOf c hne hs
    rcases List.mem_cons.mp h1 with h1 | h1
    · rw [h1]
      exact le_listMax1_self x t
    · exact le_listMax1_of_mem x 1 t h1
  exact le_antisymm hle hge

/-- C3 (amended): `BeautyCoefficientCumulativePercentage.score` applies the
Beauty-Coefficient sum with the actual share-sequence maximum as `ctm`
(which equals 1 for nonnegative histories) and denominator fixed at 1, BUT it
does NOT share BeautyCoefficient's `tm == 0` guard: on an all-zero history it
returns 0, while when the peak index of the share sequence is 0 it divides by
zero and returns NaN (`none`) instead of the claimed 0; in the remaining case
it returns the claimed sum. -/
theorem C3_bcp_characterization (c : List ℤ) (hnn : ∀ x ∈ c, (0 : ℤ) ≤ x) :
    (c.sum = 0 → bcpScore c = some 0) ∧
    (c.sum ≠ 0 → argmaxL (sharesOf c) = 0 → bcpScore c = none) ∧
    (c.sum ≠ 0 → argmaxL (sharesOf c) ≠ 0 →
      bcpScore c = some ((List.range (argmaxL (sharesOf c) + 1)).map
        (fun (t : ℕ) =>
          (((sharesOf c).getD (argmaxL (sharesOf c)) 0 - (sharesOf c).getD 0 0)
              * (t : ℚ) / (argmaxL (sharesOf c) : ℚ)
            + (sharesOf c).getD 0 0 - (sharesOf c).getD t 0) / 1)).sum) := by
  refine ⟨fun h => by simp [bcpScore, h],
    fun hs h0 => by simp [bcpScore, hs, h0],
    fun hs h0 => ?_⟩
  simp only [bcpScore]
  rw [if_neg hs, if_neg h0, sharesOf_max_eq_one c hnn hs]
  simp [div_one]

/-- C3 counterexample: for the single-entry history `[5]` the share sequence
is `[1]`, its peak index is 0, the total is nonzero, and the score is the
NaN outcome (`none`), not the 0 the claim requires. -/
theorem C3_counterexample :
    List.sum [(5 : ℤ)] ≠ 0 ∧ argmaxL (sharesOf [(5 : ℤ)]) = 0 ∧
      bcpScore [(5 : ℤ)] = none := by
  refine ⟨by decide, rfl, rfl⟩

/-! ## Lemmas for C2 (DNIC.get_ekj) -/

theorem getD_nonneg (l : List ℤ) (h : ∀ x ∈ l, 0 ≤ x) (i : ℕ) :
    0 ≤ l.getD i 0 := by
  rw [List.getD_eq_getElem?_getD]
  cases hx : l[i]? with
  | none => simp
  | some v =>
    simp only [Option.getD_some]
    exact h v (List.getElem?_mem hx)

theorem sum_eq_sum_filter_one_le (l : List ℤ) (h : ∀ x ∈ l, 0 ≤ x) :
    l.sum = (l.filter (fun x => decide (1 ≤ x))).sum := by
  induction l with
  | nil => rfl
  | cons x t ih =>
    have hx : 0 ≤ x := h x (List.mem_cons_self _ _)
    have ht := ih (fun y hy => h y (List.mem_cons_of_mem _ hy))
    by_cases h1 : 1 ≤ x
    · rw [List.filter_cons_of_pos (by simpa using h1)]
      simp only [List.sum_cons]
      rw [← ht]
    · have hx0 : x = 0 := by omega
      rw [List.filter_cons_of_neg (by simpa using h1)]
      simp only [List.sum_cons, hx0, zero_add]
      exact ht

theorem length_le_sum_of_one_le (l : List ℤ) (h : ∀ x ∈ l, 1 ≤ x) :
    (l.length : ℤ) ≤ l.sum := by
  induction l with
  | nil => simp
  | cons x t ih =>
    have hx := h x (List.mem_cons_self _ _)
    have ht := ih (fun y hy => h y (List.mem_cons_of_mem _ hy))
    simp only [List.length_cons, List.sum_cons]
    push_cast
    linarith

/-- The qualifying papers are exactly the targets with a citation that year. -/
theorem ekjQualifying_eq_filter (cl : List (List ℤ)) (sl : List (List String))
    (yl : List ℤ) (subj : String) (year : ℤ) :
    ekjQualifying cl sl yl subj year =
      (ekjTargets cl sl yl subj year).filter
        (fun r => decide (1 ≤ ekjCit year r)) := by
  unfold ekjQualifying ekjTargets
  rw [List.filter_filter]
  apply List.filter_congr
  intro r hr
  exact Bool.and_comm _ _

/-- C2 (amended): restricted to the (subject, year) cells actually present in
the table built by `DNIC.get_ekj` — those with `year` occurring in the corpus
and at least one paper published on or before `year` tagged with the subject —
the cell value is `-1` exactly when no qualifying paper exists (no target
paper with a citation `>= 1` in that absolute year), and otherwise it is the
strictly positive mean citation received that year among the qualifying
papers.  Cells of the corpus grid with no target paper at all are absent from
the table (see the counterexample), which is what the claim as stated misses. -/
theorem C2_get_ekj_characterization
    (cl : List (List ℤ)) (sl : List (List String)) (yl : List ℤ)
    (subj : String) (year : ℤ)
    (hnn : ∀ r ∈ ekjRows cl sl yl, ∀ x ∈ r.1, (0 : ℤ) ≤ x)
    (_hcov : ∀ r ∈ ekjRows cl sl yl, ∀ y ∈ yl, r.2.2 ≤ y →
      (y - r.2.2).toNat < r.1.length)
    (hy : year ∈ yl) (hne : ekjTargets cl sl yl subj year ≠ []) :
    (ekjQualifying cl sl yl subj year = [] →
      get_ekj cl sl yl subj year = some (-1)) ∧
    (ekjQualifying cl sl yl subj year ≠ [] →
      get_ekj cl sl yl subj year =
        some ((((ekjQualifying cl sl yl subj year).map (ekjCit year)).sum : ℚ)
          / ((ekjQualifying cl sl yl subj year).length : ℚ)) ∧
      0 < (((ekjQualifying cl sl yl subj year).map (ekjCit year)).sum : ℚ)
          / ((ekjQualifying cl sl yl subj year).length : ℚ)) := by
  have hfm : ((ekjTargets cl sl yl subj year).map (ekjCit year)).filter
      (fun x => decide (1 ≤ x)) =
      (ekjQualifying cl sl yl subj year).map (ekjCit year) := by
    rw [List.filter_map, ekjQualifying_eq_filter]
    rfl
  have hsum : ((ekjTargets cl sl yl subj year).map (ekjCit year)).sum =
      ((ekjQualifying cl sl yl subj year).map (ekjCit year)).sum := by
    rw [← hfm]
    apply sum_eq_sum_filter_one_le
    intro x hx
    obtain ⟨r, hr, rfl⟩ := List.mem_map.mp hx
    exact getD_nonneg _ (hnn r (List.mem_of_mem_filter hr)) _
  have hN : (((ekjTargets cl sl yl subj year).map (ekjCit year)).filter
      (fun x => decide (1 ≤ x))).length =
      (ekjQualifying cl sl yl subj year).length := by
    rw [hfm, List.length_map]
  have hunfold : get_ekj cl sl yl subj year =
      (if (((ekjTargets cl sl yl subj year).map (ekjCit year)).filter
          (fun x => decide (1 ≤ x))).length = 0
       then some (-1)
       else some ((((ekjTargets cl sl yl subj year).map (ekjCit year)).sum : ℚ)
         / ((((ekjTargets cl sl yl subj year).map (ekjCit year)).filter
            (fun x => decide (1 ≤ x))).length : ℚ))) := by
    simp only [get_ekj]
    rw [if_pos ⟨hy, hne⟩]
  constructor
  · intro hq0
    rw [hunfold, if_pos (by rw [hN, hq0]; rfl)]
  · intro hqne
    have hlen : 0 < (ekjQualifying cl sl yl subj year).length :=
      List.length_pos.mpr hqne
    have hmean : get_ekj cl sl yl subj year =
        some ((((ekjQualifying cl sl yl subj year).map (ekjCit year)).sum : ℚ)
          / ((ekjQualifying cl sl yl subj year).length : ℚ)) := by
      rw [hunfold, if_neg (by rw [hN]; omega), hsum, hN]
    refine ⟨hmean, ?_⟩
    have hall : ∀ x ∈ (ekjQualifying cl sl yl subj year).map (ekjCit year),
        1 ≤ x := by
      intro x hx
      obtain ⟨r, hr, rfl⟩ := List.mem_map.mp hx
      rw [ekjQualifying_eq_filter] at hr
      exact of_decide_eq_true (List.mem_filter.mp hr).2
    have hsge : ((ekjQualifying cl sl yl subj year).length : ℤ) ≤
        ((ekjQualifying cl sl yl subj year).map (ekjCit year)).sum := by
      have h1 := length_le_sum_of_one_le _ hall
      rwa [List.length_map] at h1
    apply div_pos
    · have h0 : (0 : ℤ) <
          ((ekjQualifying cl sl yl subj year).map (ekjCit year)).sum := by
        have h2 : (0 : ℤ) < ((ekjQualifying cl sl yl subj year).length : ℤ) := by
          exact_mod_cast hlen
        linarith
      exact_mod_cast h0
    · exact_mod_cast hlen

/-- C2 counterexample: in the corpus with papers (c=[1,1], subj A, year 0) and
(c=[1], subj B, year 1), the cell (B, 0) lies on the corpus grid (subject B
and year 0 both occur) and has zero qualifying papers, yet `get_ekj` records
no entry for it at all (key absent) instead of the sentinel `-1` the claim
requires for every zero-qualifying cell. -/
theorem C2_counterexample :
    (("B") ∈ List.flatten [[("A")], [("B")]] ∧ (0 : ℤ) ∈ [(0 : ℤ), 1]) ∧
    ekjQualifying [[1, 1], [1]] [[("A")], [("B")]] [0, 1] ("B") 0 = [] ∧
    get_ekj [[1, 1], [1]] [[("A")], [("B")]] [0, 1] ("B") 0 = none := by
  exact ⟨⟨by decide, by decide⟩, by decide, by decide⟩

theorem C2_get_ekj_characterization_witness :
    (ekjQualifying [[0, 2], [3]] [[("A")], [("A")]] [0, 1] ("A") 0 = [] ∧
      get_ekj [[0, 2], [3]] [[("A")], [("A")]] [0, 1] ("A") 0 = some (-1)) ∧
    (ekjQualifying [[0, 2], [3]] [[("A")], [("A")]] [0, 1] ("A") 1 ≠ [] ∧
      get_ekj [[0, 2], [3]] [[("A")], [("A")]] [0, 1] ("A") 1 =
        some ((((ekjQualifying [[0, 2], [3]] [[("A")], [("A")]] [0, 1] ("A") 1).map
            (ekjCit 1)).sum : ℚ)
          / ((ekjQualifying [[0, 2], [3]] [[("A")], [("A")]] [0, 1] ("A") 1).length : ℚ)) ∧
      0 < (((ekjQualifying [[0, 2], [3]] [[("A")], [("A")]] [0, 1] ("A") 1).map
            (ekjCit 1)).sum : ℚ)
          / ((ekjQualifying [[0, 2], [3]] [[("A")], [("A")]] [0, 1] ("A") 1).length : ℚ)) := by
  have h1 := C2_get_ekj_characterization [[0, 2], [3]] [[("A")], [("A")]] [0, 1]
    ("A") 0 (by decide) (by decide) (by decide) (by decide)
  have h2 := C2_get_ekj_characterization [[0, 2], [3]] [[("A")], [("A")]] [0, 1]
    ("A") 1 (by decide) (by decide) (by decide) (by decide)
  exact ⟨⟨by decide, h1.1 (by decide)⟩, ⟨by decide, h2.2 (by decide)⟩⟩

theorem C3_bcp_characterization_witness :
    ((∀ x ∈ [(0 : ℤ), 0], (0 : ℤ) ≤ x) ∧ List.sum [(0 : ℤ), 0] = 0 ∧
      bcpScore [0, 0] = some 0) ∧
    ((∀ x ∈ [(5 : ℤ)], (0 : ℤ) ≤ x) ∧ List.sum [(5 : ℤ)] ≠ 0 ∧
      argmaxL (sharesOf [(5 : ℤ)]) = 0 ∧ bcpScore [5] = none) ∧
    ((∀ x ∈ [(1 : ℤ), 2], (0 : ℤ) ≤ x) ∧ List.sum [(1 : ℤ), 2] ≠ 0 ∧
      argmaxL (sharesOf [(1 : ℤ), 2]) ≠ 0 ∧
      bcpScore [1, 2] = some ((List.range (argmaxL (sharesOf [(1 : ℤ), 2]) + 1)).map
        (fun (t : ℕ) =>
          (((sharesOf [(1 : ℤ), 2]).getD (argmaxL (sharesOf [(1 : ℤ), 2])) 0
              - (sharesOf [(1 : ℤ), 2]).getD 0 0)
              * (t : ℚ) / (argmaxL (sharesOf [(1 : ℤ), 2]) : ℚ)
            + (sharesOf [(1 : ℤ), 2]).getD 0 0
            - (sharesOf [(1 : ℤ), 2]).getD t 0) / 1)).sum) := by
  have h2 : argmaxL (sharesOf [(5 : ℤ)]) = 0 := rfl
  have h3 : argmaxL (sharesOf [(1 : ℤ), 2]) ≠ 0 := by
    norm_num [sharesOf_eq_map_range, argmaxL, listMax1, List.range_succ]
  exact ⟨⟨by decide, by decide,
      (C3_bcp_characterization [0, 0] (by decide)).1 (by decide)⟩,
    ⟨by decide, by decide, h2,
      (C3_bcp_characterization [5] (by decide)).2.1 (by decide) h2⟩,
    ⟨by decide, by decide, h3,
      (C3_bcp_characterization [1, 2] (by decide)).2.2 (by decide) h3⟩⟩

/-- C7: each present (subject, year) entry of `Quartile.get_c_dic` is the
positional order statistic of the group's `c50` values: for `0 <= rate < 1`
it equals the element at index `⌊groupSize * rate⌋` of the ascending-sorted
list of those values (`l` is any ascending-sorted enumeration of the group's
values; being a sorted permutation it is unique), not an interpolated
percentile. -/
theorem C7_get_c_dic_order_statistic
    (c50l : List ℤ) (sl : List (List String)) (yl : List ℤ) (rate : ℚ)
    (subj : String) (year : ℤ) (l : List ℤ)
    (h0 : 0 ≤ rate) (h1 : rate < 1)
    (hne : cdicTargets c50l sl yl subj year ≠ [])
    (hperm : l.Perm ((cdicTargets c50l sl yl subj year).map (fun r => r.1)))
    (hsort : l.Sorted (fun a b => a ≤ b)) :
    (⌊((cdicTargets c50l sl yl subj year).length : ℚ) * rate⌋.toNat < l.length) ∧
    get_c_dic c50l sl yl rate subj year =
      some (l.getD
        (⌊((cdicTargets c50l sl yl subj year).length : ℚ) * rate⌋.toNat) 0) := by
  have hTpos : 0 < (cdicTargets c50l sl yl subj year).length :=
    List.length_pos.mpr hne
  have hflo : ⌊((cdicTargets c50l sl yl subj year).length : ℚ) * rate⌋ <
      ((cdicTargets c50l sl yl subj year).length : ℤ) := by
    rw [Int.floor_lt]
    push_cast
    calc ((cdicTargets c50l sl yl subj year).length : ℚ) * rate
        < ((cdicTargets c50l sl yl subj year).length : ℚ) * 1 :=
          mul_lt_mul_of_pos_left h1 (by exact_mod_cast hTpos)
      _ = ((cdicTargets c50l sl yl subj year).length : ℚ) := mul_one _
  have hge : 0 ≤ ⌊((cdicTargets c50l sl yl subj year).length : ℚ) * rate⌋ :=
    Int.floor_nonneg.mpr (mul_nonneg (by positivity) h0)
  have hlenl : l.length = (cdicTargets c50l sl yl subj year).length := by
    rw [hperm.length_eq, List.length_map]
  have hidx : ⌊((cdicTargets c50l sl yl subj year).length : ℚ) * rate⌋.toNat
      < l.length := by omega
  refine ⟨hidx, ?_⟩
  have hl : l = ((cdicTargets c50l sl yl subj year).map
      (fun r => r.1)).insertionSort (fun a b => a ≤ b) :=
    List.eq_of_perm_of_sorted
      (hperm.trans (List.perm_insertionSort _ _).symm) hsort
      (List.sorted_insertionSort _ _)
  simp only [get_c_dic]
  rw [if_neg hne, ← hl]

theorem C7_get_c_dic_order_statistic_witness :
    ((0 : ℚ) ≤ 1 / 2 ∧ (1 : ℚ) / 2 < 1 ∧
      cdicTargets [3, 1, 4, 1, 5] [[("A")], [("A")], [("A")], [("A")], [("A")]]
        [0, 0, 0, 0, 0] ("A") 0 ≠ []) ∧
    get_c_dic [3, 1, 4, 1, 5] [[("A")], [("A")], [("A")], [("A")], [("A")]]
      [0, 0, 0, 0, 0] (1 / 2) ("A") 0 = some 3 := by
  have h := C7_get_c_dic_order_statistic [3, 1, 4, 1, 5]
    [[("A")], [("A")], [("A")], [("A")], [("A")]] [0, 0, 0, 0, 0] (1 / 2)
    ("A") 0 [1, 1, 3, 4, 5] (by norm_num) (by norm_num) (by decide)
    (by decide) (by decide)
  refine ⟨⟨by norm_num, by norm_num, by decide⟩, ?_⟩
  rw [h.2]
  have hT : (cdicTargets [3, 1, 4, 1, 5]
      [[("A")], [("A")], [("A")], [("A")], [("A")]] [0, 0, 0, 0, 0]
      ("A") 0).length = 5 := by decide
  have hflo : ⌊((5 : ℕ) : ℚ) * (1 / 2)⌋ = 2 := by
    rw [Int.floor_eq_iff]
    norm_num
  rw [hT, hflo]
  rfl

/-! ## Lemmas for C8 (KValue) -/

theorem list_sum_eq_sum_range (l : List ℤ) :
    l.sum = (Finset.range l.length).sum (fun i => l.getD i 0) := by
  induction l with
  | nil => simp
  | cons x t ih =>
    rw [List.sum_cons, List.length_cons, Finset.sum_range_succ']
    simp only [List.getD_cons_succ, List.getD_cons_zero]
    rw [ih]
    ring

theorem sum_range_extend (c20 : List ℤ) (f : ℕ → ℤ → ℤ) (hf : ∀ i, f i 0 = 0)
    (n : ℕ) (hn : c20.length ≤ n) :
    (Finset.range c20.length).sum (fun i => f i (c20.getD i 0)) =
    (Finset.range n).sum (fun i => f i (c20.getD i 0)) := by
  apply Finset.sum_subset (Finset.range_subset.mpr hn)
  intro i _ hi
  rw [Finset.mem_range, not_lt] at hi
  rw [List.getD_eq_getElem?_getD, List.getElem?_eq_none hi, Option.getD_none]
  exact hf i

theorem getD_take_eq (c : List ℤ) (n i : ℕ) (hi : i < n) :
    (c.take n).getD i 0 = c.getD i 0 := by
  rw [List.getD_eq_getElem?_getD, List.getD_eq_getElem?_getD,
    List.getElem?_take_of_lt hi]

/-- C8: `KValue.score` depends only on the first 21 entries: it is invariant
under truncation at 21, equals 0 whenever the first 21 entries are all zero
(whatever lies beyond index 20), and otherwise equals
`sqrt((sum of t^2*c_t for t in [0,20]) / (sum of c_t for t in [0,20])) / 20`,
an expression in the first 21 entries only. -/
theorem C8_kvalue_characterization (c : List ℤ) :
    kvalueScore c = kvalueScore (c.take 21) ∧
    ((∀ t, t < 21 → c.getD t 0 = 0) → kvalueScore c = 0) ∧
    ((c.take 21).sum ≠ 0 →
      kvalueScore c = Real.sqrt
        ((((Finset.range 21).sum (fun t => (t : ℤ) ^ 2 * c.getD t 0) : ℤ) : ℝ)
          / (((Finset.range 21).sum (fun t => c.getD t 0) : ℤ) : ℝ)) / 20) := by
  have htake : (c.take 21).take 21 = c.take 21 := by
    rw [List.take_take]
    norm_num
  have hgetD : ∀ i, i < 21 → (c.take 21).getD i 0 = c.getD i 0 :=
    fun i hi => getD_take_eq c 21 i hi
  have hlen : (c.take 21).length ≤ 21 := List.length_take_le 21 c
  have hsum : (c.take 21).sum = (Finset.range 21).sum (fun t => c.getD t 0) := by
    rw [list_sum_eq_sum_range,
      sum_range_extend (c.take 21) (fun i x => x) (fun i => rfl) 21 hlen]
    apply Finset.sum_congr rfl
    intro i hi
    exact hgetD i (Finset.mem_range.mp hi)
  have hnum : (Finset.range (c.take 21).length).sum
      (fun i => (i : ℤ) ^ 2 * (c.take 21).getD i 0) =
      (Finset.range 21).sum (fun t => (t : ℤ) ^ 2 * c.getD t 0) := by
    rw [sum_range_extend (c.take 21) (fun i x => (i : ℤ) ^ 2 * x)
      (fun i => mul_zero _) 21 hlen]
    apply Finset.sum_congr rfl
    intro i hi
    rw [hgetD i (Finset.mem_range.mp hi)]
  refine ⟨?_, ?_, ?_⟩
  · simp only [kvalueScore, htake]
  · intro hz
    have h0 : (c.take 21).sum = 0 := by
      rw [hsum]
      apply Finset.sum_eq_zero
      intro i hi
      exact hz i (Finset.mem_range.mp hi)
    simp only [kvalueScore]
    rw [if_pos h0]
  · intro hnz
    simp only [kvalueScore]
    rw [if_neg hnz, hnum, hsum]

theorem C8_kvalue_characterization_witness :
    ((∀ t, t < 21 → (List.replicate 21 (0 : ℤ) ++ [5]).getD t 0 = 0) ∧
      kvalueScore (List.replicate 21 (0 : ℤ) ++ [5]) = 0) ∧
    (([(0 : ℤ), 3].take 21).sum ≠ 0 ∧
      kvalueScore [(0 : ℤ), 3] = Real.sqrt
        ((((Finset.range 21).sum
            (fun t => (t : ℤ) ^ 2 * [(0 : ℤ), 3].getD t 0) : ℤ) : ℝ)
          / (((Finset.range 21).sum
            (fun t => [(0 : ℤ), 3].getD t 0) : ℤ) : ℝ)) / 20) := by
  have hz : ∀ t, t < 21 → (List.replicate 21 (0 : ℤ) ++ [5]).getD t 0 = 0 := by
    decide
  have h3 : (([(0 : ℤ), 3]).take 21).sum ≠ 0 := by decide
  exact ⟨⟨hz, (C8_kvalue_characterization (List.replicate 21 (0 : ℤ) ++ [5])).2.1 hz⟩,
    ⟨h3, (C8_kvalue_characterization [(0 : ℤ), 3]).2.2 h3⟩⟩

/-! ## C9: CitationAngle -/

/-- C9: `CitationAngle.extract` is `False` for every history of length at
most 10 regardless of the four thresholds; for longer histories it returns
`True` only if all four threshold conditions hold jointly: the post-half peak
exceeds `c_peak`, the angle `atan(peak2/t2)` in degrees exceeds `angle_after`,
the pre-half average is at most `c_before_average`, and the gap between the
post-half and pre-half peak offsets is at least `span`. -/
theorem C9_citation_angle_characterization (c : List ℤ)
    (cba cp aa sp : ℝ) :
    (c.length ≤ 10 → ¬ citationAngleExtract c cba cp aa sp) ∧
    (citationAngleExtract c cba cp aa sp →
      10 < c.length ∧ cp < (caPeak2 c : ℝ) ∧
      aa < Real.arctan ((caPeak2 c : ℝ) / (caT2 c : ℝ)) * (180 / Real.pi) ∧
      caAc1 c ≤ cba ∧ sp ≤ (caT2 c : ℝ) - (caT1 c : ℝ)) := by
  constructor
  · intro hlen hext
    rw [citationAngleExtract, if_pos hlen] at hext
    exact hext
  · intro hext
    by_cases hlen : c.length ≤ 10
    · rw [citationAngleExtract, if_pos hlen] at hext
      exact hext.elim
    · rw [citationAngleExtract, if_neg hlen] at hext
      exact ⟨by omega, hext.1, hext.2.1, hext.2.2.1, hext.2.2.2⟩

theorem C9_citation_angle_characterization_witness :
    (List.length (List.replicate 10 (5 : ℤ)) ≤ 10 ∧
      ¬ citationAngleExtract (List.replicate 10 (5 : ℤ)) 0 0 0 0) ∧
    (citationAngleExtract [0, 0, 0, 0, 0, 0, 0, 0, 0, 0, 10] 0 0 (-1) 0 ∧
      (10 < List.length [(0 : ℤ), 0, 0, 0, 0, 0, 0, 0, 0, 0, 10] ∧
        (0 : ℝ) < (caPeak2 [(0 : ℤ), 0, 0, 0, 0, 0, 0, 0, 0, 0, 10] : ℝ) ∧
        (-1 : ℝ) < Real.arctan
            ((caPeak2 [(0 : ℤ), 0, 0, 0, 0, 0, 0, 0, 0, 0, 10] : ℝ)
              / (caT2 [(0 : ℤ), 0, 0, 0, 0, 0, 0, 0, 0, 0, 10] : ℝ))
            * (180 / Real.pi) ∧
        caAc1 [(0 : ℤ), 0, 0, 0, 0, 0, 0, 0, 0, 0, 10] ≤ 0 ∧
        (0 : ℝ) ≤ (caT2 [(0 : ℤ), 0, 0, 0, 0, 0, 0, 0, 0, 0, 10] : ℝ)
          - (caT1 [(0 : ℤ), 0, 0, 0, 0, 0, 0, 0, 0, 0, 10] : ℝ))) := by
  have hext : citationAngleExtract [0, 0, 0, 0, 0, 0, 0, 0, 0, 0, 10] 0 0 (-1) 0 := by
    rw [citationAngleExtract, if_neg (by norm_num)]
    have hp : caPeak2 [(0 : ℤ), 0, 0, 0, 0, 0, 0, 0, 0, 0, 10] = 10 := by decide
    have ht2 : caT2 [(0 : ℤ), 0, 0, 0, 0, 0, 0, 0, 0, 0, 10] = 10 := by decide
    have ht1 : caT1 [(0 : ℤ), 0, 0, 0, 0, 0, 0, 0, 0, 0, 10] = 0 := by decide
    refine ⟨?_, ?_, ?_, ?_⟩
    · rw [hp]
      norm_num
    · rw [hp, ht2]
      have h1 : (0 : ℝ) < Real.arctan (((10 : ℤ) : ℝ) / ((10 : ℕ) : ℝ)) := by
        have hm := Real.arctan_strictMono
          (show (0 : ℝ) < ((10 : ℤ) : ℝ) / ((10 : ℕ) : ℝ) by norm_num)
        rwa [Real.arctan_zero] at hm
      have h2 : (0 : ℝ) < 180 / Real.pi := div_pos (by norm_num) Real.pi_pos
      have h3 := mul_pos h1 h2
      linarith
    · show caAc1 [(0 : ℤ), 0, 0, 0, 0, 0, 0, 0, 0, 0, 10] ≤ 0
      unfold caAc1
      rw [show (([(0 : ℤ), 0, 0, 0, 0, 0, 0, 0, 0, 0, 10].take
        (caTh [(0 : ℤ), 0, 0, 0, 0, 0, 0, 0, 0, 0, 10])).sum) = 0 from by decide]
      norm_num
    · rw [ht2, ht1]
      norm_num
  refine ⟨⟨by simp, (C9_citation_angle_characterization
      (List.replicate 10 (5 : ℤ)) 0 0 0 0).1 (by simp)⟩,
    hext, (C9_citation_angle_characterization
      [0, 0, 0, 0, 0, 0, 0, 0, 0, 0, 10] 0 0 (-1) 0).2 hext⟩
